/-
Verification of the douban movie scraper core against its design document.

The development shallowly embeds the TypeScript sources:
  * JS strings are modelled as `List Char` (for the BMP text handled here,
    UTF-16 code units coincide with code points).
  * The regular expressions used by the scraper are embedded via a small
    backtracking engine (`RE`, `mrun`, `searchAux`, `execAll`) whose
    constructs cover exactly what the source patterns use: literals,
    character classes, greedy and lazy class stars, and capture groups.
  * Network effects are modelled by passing the outcome of each HTTP
    attempt (or of a whole fetch) as an explicit oracle argument.
  * JS numbers are modelled as `ℚ` where fractional scores appear.
-/
import Mathlib

namespace Douban

/-- Shorthand: a JS string literal as the `List Char` model used throughout. -/
def sl (s : String) : List Char := s.toList

/-! ## JS whitespace, `String.prototype.trim`, and `StringUtils` -/

/-- The character set matched by the JS regex class `\s` (which is also the
set stripped by `String.prototype.trim`): WhiteSpace plus LineTerminator. -/
def jsWs (c : Char) : Bool :=
  let n := c.toNat
  n == 9 || n == 10 || n == 11 || n == 12 || n == 13 || n == 32 ||
  n == 160 || n == 0x1680 || (0x2000 ≤ n && n ≤ 0x200a) ||
  n == 0x2028 || n == 0x2029 || n == 0x202f || n == 0x205f ||
  n == 0x3000 || n == 0xfeff

/-- `text.replace(/\s+/g, ' ')`: each maximal whitespace run becomes one
space.  The boolean flag records whether the previous character was part of
a whitespace run already replaced. -/
def collapseGo : Bool → List Char → List Char
  | _, [] => []
  | prevWs, c :: cs =>
    if jsWs c then
      if prevWs then collapseGo true cs else ' ' :: collapseGo true cs
    else c :: collapseGo false cs

/-- `text.replace(/\s+/g, ' ')` from `StringUtils.cleanWhitespace`. -/
def collapseWs (s : List Char) : List Char := collapseGo false s

/-- Leading-whitespace strip, the first half of `String.prototype.trim`. -/
def trimLeft (s : List Char) : List Char := s.dropWhile jsWs

/-- Trailing-whitespace strip, the second half of `String.prototype.trim`. -/
def trimRight (s : List Char) : List Char := (s.reverse.dropWhile jsWs).reverse

/-- `String.prototype.trim`. -/
def trimC (s : List Char) : List Char := trimRight (trimLeft s)

/-- `StringUtils.cleanWhitespace`: `text.replace(/\s+/g, ' ').trim()`. -/
def cleanWhitespace (s : List Char) : List Char := trimC (collapseWs s)

/-- Position after the first `'>'`, used by the tag-stripping scanner. -/
def afterGt : List Char → Option (List Char)
  | [] => none
  | c :: cs => if c = '>' then some cs else afterGt cs

theorem afterGt_length {cs rest : List Char} (h : afterGt cs = some rest) :
    rest.length < cs.length := by
  induction cs with
  | nil => simp [afterGt] at h
  | cons c cs ih =>
    by_cases hc : c = '>'
    · simp [afterGt, hc] at h
      subst h
      simp
    · simp [afterGt, hc] at h
      have := ih h
      simp
      omega

/-- The global replace `html.replace(/<[^>]*>/g, '')`: a `'<'` opens a tag
that runs to the first `'>'`; a `'<'` with no later `'>'` never matches, and
since the rest of the input then holds no `'>'` at all, the remainder is
kept verbatim.  The fuel argument only bounds the recursion for the
termination checker; every step strictly shortens the string, so starting
the fuel at the string's length (as `stripTags` does) never exhausts it. -/
def stripTagsGo : Nat → List Char → List Char
  | 0, s => s
  | _, [] => []
  | fuel + 1, c :: cs =>
    if c = '<' then
      match afterGt cs with
      | some rest => stripTagsGo fuel rest
      | none => c :: cs
    else c :: stripTagsGo fuel cs

/-- `html.replace(/<[^>]*>/g, '')` at full fuel. -/
def stripTags (s : List Char) : List Char := stripTagsGo s.length s

/-- `StringUtils.stripHtml`: `html.replace(/<[^>]*>/g, '').trim()`. -/
def stripHtml (s : List Char) : List Char := trimC (stripTags s)

/-- `String.prototype.startsWith`. -/
def startsWithL : List Char → List Char → Bool
  | _, [] => true
  | [], _ :: _ => false
  | c :: cs, p :: ps => c = p && startsWithL cs ps

/-- `big.includes(small)`: contiguous-substring containment. -/
def containsSub (big small : List Char) : Bool :=
  match big with
  | [] => startsWithL [] small
  | _ :: rest => startsWithL big small || containsSub rest small

/-- `StringUtils.truncate(text, maxLength)` with the default `'...'` suffix. -/
def truncateJs (s : List Char) (maxLength : Nat) : List Char :=
  if s.length ≤ maxLength then s else s.take (maxLength - 3) ++ sl "..."

/-- `String.prototype.toLowerCase`, restricted to the per-character map. -/
def toLowerJs (s : List Char) : List Char := s.map Char.toLower

/-! ## The regex engine

Every pattern in the scraper is a sequence of literals, character classes,
greedy or lazy stars of character classes, and capture groups; no
alternation, no anchors inside a pattern (anchored patterns are embedded as
dedicated string functions).  The engine below implements exactly standard
JS backtracking semantics for that fragment. -/

/-- The regex fragment used by the scraper's patterns. -/
inductive RE where
  | eps : RE
  | lit : Char → RE
  | cls : (Char → Bool) → RE
  | seq : RE → RE → RE
  | starG : (Char → Bool) → RE
  | starL : (Char → Bool) → RE
  | group : Nat → RE → RE

/-- Captures are an association list from group number to captured text. -/
abbrev Caps := List (Nat × List Char)

/-- Greedy class star: consume as much as possible, then give back one
character at a time while the continuation fails. -/
def starGAux {α : Type} (p : Char → Bool) : List Char → (List Char → Option α) → Option α
  | [], k => k []
  | c :: cs, k =>
    if p c then
      match starGAux p cs k with
      | some m => some m
      | none => k (c :: cs)
    else k (c :: cs)

/-- Lazy class star: try the continuation first, consuming one character at
a time only while it fails. -/
def starLAux {α : Type} (p : Char → Bool) : List Char → (List Char → Option α) → Option α
  | [], k => k []
  | c :: cs, k =>
    match k (c :: cs) with
    | some m => some m
    | none => if p c then starLAux p cs k else none

/-- Backtracking matcher in continuation-passing style.  A group records the
slice it consumed (engine movement is strictly forward, so the slice is the
length difference of the input before and after the inner match). -/
def mrun {α : Type} : RE → List Char → Caps → (List Char → Caps → Option α) → Option α
  | .eps, s, caps, k => k s caps
  | .lit c, s, caps, k =>
    match s with
    | [] => none
    | d :: rest => if d = c then k rest caps else none
  | .cls p, s, caps, k =>
    match s with
    | [] => none
    | d :: rest => if p d then k rest caps else none
  | .seq a b, s, caps, k => mrun a s caps (fun s' caps' => mrun b s' caps' k)
  | .starG p, s, caps, k => starGAux p s (fun s' => k s' caps)
  | .starL p, s, caps, k => starLAux p s (fun s' => k s' caps)
  | .group n r, s, caps, k =>
    mrun r s caps (fun s' caps' => k s' ((n, s.take (s.length - s'.length)) :: caps'))

/-- `String.prototype.match` (no `g` flag): first match scanning start
positions left to right; returns the captures and the remainder after the
matched slice. -/
def searchAux (r : RE) : List Char → Option (Caps × List Char)
  | [] => mrun r [] [] (fun rest caps => some (caps, rest))
  | s@(_ :: tail) =>
    match mrun r s [] (fun rest caps => some (caps, rest)) with
    | some m => some m
    | none => searchAux r tail

/-- Captures of the first match, if any (the shape `html.match(p)` uses). -/
def searchStr (r : RE) (s : List Char) : Option Caps :=
  (searchAux r s).map Prod.fst

/-- Value of a numbered capture group, `[]` when absent (a JS falsy value,
matching how the scraper tests `match[n]`). -/
def getCap (caps : Caps) (n : Nat) : List Char :=
  match caps.find? (fun e => e.1 == n) with
  | some e => e.2
  | none => []

/-- The `while ((match = re.exec(s)) !== null)` loop over a `g`-flagged
pattern: successive non-overlapping matches left to right.  None of the
scraper's global patterns can match the empty string, so the loop below,
which stops unless the match made progress, is exact for them.  The fuel
argument only bounds the recursion: every iteration strictly shortens the
remaining string, so `execAll`'s initial fuel never runs out. -/
def execAllGo (r : RE) : Nat → List Char → List Caps
  | 0, _ => []
  | fuel + 1, s =>
    match searchAux r s with
    | none => []
    | some (caps, rest) =>
      caps :: (if rest.length < s.length then execAllGo r fuel rest else [])

/-- All capture records of a global pattern over a string. -/
def execAll (r : RE) (s : List Char) : List Caps := execAllGo r (s.length + 1) s

/-! Pattern-building helpers. -/

/-- A literal string as a regex. -/
def reLit (s : String) : RE := s.toList.foldr (fun c acc => RE.seq (RE.lit c) acc) RE.eps

/-- Sequencing of a pattern list. -/
def reSeq (l : List RE) : RE := l.foldr RE.seq RE.eps

/-- The class `[^>]`. -/
def notGt (c : Char) : Bool := c ≠ '>'

/-- The class `[^"]`. -/
def notQuote (c : Char) : Bool := c ≠ '"'

/-- The class `[^<]`. -/
def notLt (c : Char) : Bool := c ≠ '<'

/-- The class `\d`. -/
def isDig (c : Char) : Bool := c.isDigit

/-- The class `[\s\S]`. -/
def anyCh (_ : Char) : Bool := true

/-- `p+` for a character class: one mandatory character then a greedy star. -/
def rePlus (p : Char → Bool) : RE := RE.seq (RE.cls p) (RE.starG p)

/-- `\d{4}`. -/
def reFourDigits : RE := reSeq [RE.cls isDig, RE.cls isDig, RE.cls isDig, RE.cls isDig]

/-! ## Error model (`errors.ts`)

`DoubanScraperError` carries a `type` discriminator, a message and an
optional wrapped cause.  The claims only ever mention the kind of an error
and what it wraps, so the embedding keeps the discriminator and the kind of
the wrapped cause; messages are human-readable text with no control role. -/

/-- The `ErrorType` enum. -/
inductive ErrorType where
  | network
  | parse
  | noResults
  | invalidArgs
  | configError
  | fileSystemError
  | serverError
  | unknownError
deriving DecidableEq, Repr

/-- A `DoubanScraperError`: its `type` and the `type` of its original
error when that original error was itself a `DoubanScraperError`. -/
structure DError where
  typ : ErrorType
  cause : Option ErrorType
deriving DecidableEq, Repr

/-- `ErrorFactory.createNetworkError` with no wrapped cause. -/
def netError : DError := { typ := ErrorType.network, cause := none }

/-- `ErrorFactory.createInvalidArgsError`. -/
def invalidArgsError : DError := { typ := ErrorType.invalidArgs, cause := none }

/-- `ErrorFactory.createNoResultsError`. -/
def noResultsError : DError := { typ := ErrorType.noResults, cause := none }

/-- `ErrorFactory.createParseError` wrapping a given original error. -/
def parseErrorWrapping (cause : Option ErrorType) : DError :=
  { typ := ErrorType.parse, cause := cause }

/-! ## Constants (`constants.ts`) -/

/-- `DOUBAN_CONFIG.BASE_URL`. -/
def BASE_URL : List Char := sl "https://movie.douban.com"

/-- `HTTP_CONFIG.MAX_RETRIES`. -/
def MAX_RETRIES : Nat := 3

/-- `HTTP_CONFIG.RETRY_DELAY` (milliseconds). -/
def RETRY_DELAY : Nat := 1000

/-- `REGEX_PATTERNS.MOVIE_ID`: `/\/subject\/(\d+)\//`. -/
def MOVIE_ID : RE :=
  reSeq [reLit "/subject/", RE.group 1 (rePlus isDig), RE.lit '/']

/-- `REGEX_PATTERNS.RATING`: `/(\d+\.\d+)/`. -/
def RATING : RE :=
  RE.group 1 (reSeq [rePlus isDig, RE.lit '.', rePlus isDig])

/-- `REGEX_PATTERNS.YEAR`: `/\((\d{4})\)/`. -/
def YEAR : RE := reSeq [RE.lit '(', RE.group 1 reFourDigits, RE.lit ')']

/-! ## Detail parser (`parser.ts`): patterns -/

/-- The four `titlePatterns` of `parseTitle`, in declared order. -/
def titlePatterns : List RE :=
  [ reSeq [reLit "<h1", RE.starG notGt, RE.lit '>', RE.starL anyCh,
      reLit "<span", RE.starG notGt, reLit "property=\"v:itemreviewed\"",
      RE.starG notGt, RE.lit '>', RE.group 1 (rePlus notLt), reLit "</span>"],
    reSeq [reLit "<h1", RE.starG notGt, RE.lit '>', RE.starL anyCh,
      reLit "<span", RE.starG notGt, RE.lit '>',
      RE.group 1 (rePlus notLt), reLit "</span>"],
    reSeq [reLit "<title>", RE.group 1 (rePlus notLt), reLit "</title>"],
    reSeq [reLit "<h1", RE.starG notGt, RE.lit '>',
      RE.group 1 (rePlus notLt), reLit "</h1>"] ]

/-- The five `yearPatterns` of `parseYear`, in declared order (the last is
`REGEX_PATTERNS.YEAR`). -/
def yearPatterns : List RE :=
  [ reSeq [reLit "<span", RE.starG notGt, reLit "class=\"year\"",
      RE.starG notGt, reLit ">(", RE.group 1 reFourDigits, reLit ")</span>"],
    reSeq [reLit "<span", RE.starG notGt,
      reLit "property=\"v:initialReleaseDate\"", RE.starG notGt,
      reLit "content=\"", RE.group 1 reFourDigits, RE.starG notQuote,
      RE.lit '"', RE.starG notGt, RE.lit '>'],
    reSeq [reLit "上映日期", RE.starG notGt, RE.lit '>', RE.starL anyCh,
      RE.group 1 reFourDigits],
    reSeq [reLit "年份", RE.starG notGt, RE.lit '>', RE.starL anyCh,
      RE.group 1 reFourDigits],
    YEAR ]

/-- The four `ratingPatterns` of `parseRating`, in declared order. -/
def ratingPatterns : List RE :=
  [ reSeq [reLit "<strong", RE.starG notGt, reLit "class=\"",
      RE.starG notQuote, reLit "rating_num", RE.starG notQuote, RE.lit '"',
      RE.starG notGt, reLit "property=\"v:average\"", RE.starG notGt,
      RE.lit '>', RE.group 1 (rePlus notLt), reLit "</strong>"],
    reSeq [reLit "<span", RE.starG notGt, reLit "property=\"v:average\"",
      RE.starG notGt, RE.lit '>', RE.group 1 (rePlus notLt), reLit "</span>"],
    reSeq [reLit "<div", RE.starG notGt, reLit "class=\"rating_self\"",
      RE.starG notGt, RE.lit '>', RE.starL anyCh, reLit "<strong",
      RE.starG notGt, RE.lit '>', RE.group 1 (rePlus notLt), reLit "</strong>"],
    reSeq [reLit "评分", RE.starL anyCh,
      RE.group 1 (reSeq [rePlus isDig, RE.lit '.', rePlus isDig])] ]

/-- The three global `genrePatterns` of `parseGenres`, in declared order. -/
def genrePatterns : List RE :=
  [ reSeq [reLit "<span", RE.starG notGt, reLit "property=\"v:genre\"",
      RE.starG notGt, RE.lit '>', RE.group 1 (rePlus notLt), reLit "</span>"],
    reSeq [reLit "类型", RE.starG notGt, RE.lit '>', RE.starL anyCh,
      reLit "<span", RE.starG notGt, RE.lit '>',
      RE.group 1 (rePlus notLt), reLit "</span>"],
    reSeq [reLit "genre", RE.starG notGt, RE.lit '>',
      RE.group 1 (rePlus notLt), RE.lit '<'] ]

/-- The three global `actorPatterns` of `parseActors`, in declared order. -/
def actorPatterns : List RE :=
  [ reSeq [reLit "<a", RE.starG notGt, reLit "rel=\"v:starring\"",
      RE.starG notGt, RE.lit '>', RE.group 1 (rePlus notLt), reLit "</a>"],
    reSeq [reLit "<span", RE.starG notGt, reLit "class=\"actor\"",
      RE.starG notGt, RE.lit '>', RE.starL anyCh, reLit "<a",
      RE.starG notGt, RE.lit '>', RE.group 1 (rePlus notLt), reLit "</a>"],
    reSeq [reLit "主演", RE.starG notGt, RE.lit '>', RE.starL anyCh,
      reLit "<a", RE.starG notGt, RE.lit '>',
      RE.group 1 (rePlus notLt), reLit "</a>"] ]

/-- The four `posterPatterns` of `parsePoster`, in declared order. -/
def posterPatterns : List RE :=
  [ reSeq [reLit "<a", RE.starG notGt, reLit "class=\"nbgnbg\"",
      RE.starG notGt, RE.lit '>', RE.starL anyCh, reLit "<img",
      RE.starG notGt, reLit "src=\"", RE.group 1 (rePlus notQuote),
      RE.lit '"', RE.starG notGt, RE.lit '>'],
    reSeq [reLit "<img", RE.starG notGt, reLit "rel=\"v:image\"",
      RE.starG notGt, reLit "src=\"", RE.group 1 (rePlus notQuote),
      RE.lit '"', RE.starG notGt, RE.lit '>'],
    reSeq [reLit "<div", RE.starG notGt, reLit "id=\"mainpic\"",
      RE.starG notGt, RE.lit '>', RE.starL anyCh, reLit "<img",
      RE.starG notGt, reLit "src=\"", RE.group 1 (rePlus notQuote),
      RE.lit '"', RE.starG notGt, RE.lit '>'],
    reSeq [reLit "<img", RE.starG notGt, reLit "class=\"",
      RE.starG notQuote, reLit "poster", RE.starG notQuote, RE.lit '"',
      RE.starG notGt, reLit "src=\"", RE.group 1 (rePlus notQuote),
      RE.lit '"', RE.starG notGt, RE.lit '>'] ]

/-- The four `summaryPatterns` of `parseSummary`, in declared order. -/
def summaryPatterns : List RE :=
  [ reSeq [reLit "<span", RE.starG notGt, reLit "property=\"v:summary\"",
      RE.starG notGt, RE.lit '>', RE.group 1 (RE.starL anyCh), reLit "</span>"],
    reSeq [reLit "<div", RE.starG notGt, reLit "class=\"indent\"",
      RE.starG notGt, reLit "id=\"link-report\"", RE.starG notGt, RE.lit '>',
      RE.starL anyCh, reLit "<span", RE.starG notGt,
      reLit "class=\"all hidden\"", RE.starG notGt, RE.lit '>',
      RE.group 1 (RE.starL anyCh), reLit "</span>"],
    reSeq [reLit "<div", RE.starG notGt, reLit "class=\"indent\"",
      RE.starG notGt, reLit "id=\"link-report\"", RE.starG notGt, RE.lit '>',
      RE.starL anyCh, reLit "<span", RE.starG notGt, RE.lit '>',
      RE.group 1 (RE.starL anyCh), reLit "</span>"],
    reSeq [reLit "剧情简介", RE.starL anyCh, reLit "<div", RE.starG notGt,
      RE.lit '>', RE.group 1 (RE.starL anyCh), reLit "</div>"] ]

/-! ## Detail parser (`parser.ts`): field extraction -/

/-- `title.replace(/\s*\(豆瓣\)$/, '')`: the pattern matches exactly when
the string ends in `"(豆瓣)"`; leftmost matching makes `\s*` swallow the
whole whitespace run before it. -/
def stripDoubanSuffix (s : List Char) : List Char :=
  let r := s.reverse
  if startsWithL r (sl "(豆瓣)").reverse then
    ((r.drop 4).dropWhile jsWs).reverse
  else s

/-- `title.replace(/\s*-\s*豆瓣电影$/, '')`. -/
def stripDoubanMovieSuffix (s : List Char) : List Char :=
  let r := s.reverse
  if startsWithL r (sl "豆瓣电影").reverse then
    let r1 := (r.drop 4).dropWhile jsWs
    match r1 with
    | '-' :: r2 => (r2.dropWhile jsWs).reverse
    | _ => s
  else s

/-- The per-pattern body of `parseTitle`'s loop. -/
def parseTitleGo (html : List Char) : List RE → List Char
  | [] => sl "未知电影"
  | p :: ps =>
    match searchStr p html with
    | some caps =>
      let c := getCap caps 1
      if c ≠ [] then
        let t := stripDoubanMovieSuffix (stripDoubanSuffix (trimC (stripHtml c)))
        if t ≠ [] then cleanWhitespace t else parseTitleGo html ps
      else parseTitleGo html ps
    | none => parseTitleGo html ps

/-- `parseTitle`. -/
def parseTitle (html : List Char) : List Char := parseTitleGo html titlePatterns

/-- The `/^\d{4}$/` validation in `parseYear`. -/
def isFourDigitYear (s : List Char) : Bool :=
  s.length == 4 && s.all isDig

/-- The per-pattern body of `parseYear`'s loop. -/
def parseYearGo (html : List Char) : List RE → List Char
  | [] => sl "未知"
  | p :: ps =>
    match searchStr p html with
    | some caps =>
      let y := getCap caps 1
      if y ≠ [] && isFourDigitYear y then y else parseYearGo html ps
    | none => parseYearGo html ps

/-- `parseYear`. -/
def parseYear (html : List Char) : List Char := parseYearGo html yearPatterns

/-- The per-pattern body of `parseRating`'s loop (the candidate is trimmed
and validated against `REGEX_PATTERNS.RATING` before acceptance). -/
def parseRatingGo (html : List Char) : List RE → List Char
  | [] => sl "暂无评分"
  | p :: ps =>
    match searchStr p html with
    | some caps =>
      let c := getCap caps 1
      if c ≠ [] then
        let rating := trimC c
        if (searchStr RATING rating).isSome then rating else parseRatingGo html ps
      else parseRatingGo html ps
    | none => parseRatingGo html ps

/-- `parseRating`. -/
def parseRating (html : List Char) : List Char := parseRatingGo html ratingPatterns

/-- Push a cleaned entry onto a list field, skipping empties and
duplicates (the `if (x && !xs.includes(x)) xs.push(x)` step). -/
def addUnique (acc : List (List Char)) (x : List Char) : List (List Char) :=
  if x ≠ [] && !(acc.contains x) then acc ++ [x] else acc

/-- The shared loop shape of `parseGenres` and `parseActors`: run each
global pattern in order, cleaning every capture, and stop at the first
pattern that produced at least one entry. -/
def parseListField (html : List Char) : List RE → List (List Char)
  | [] => []
  | p :: ps =>
    let found := (execAll p html).foldl
      (fun acc caps => addUnique acc (trimC (stripHtml (getCap caps 1)))) []
    if found ≠ [] then found else parseListField html ps

/-- `parseGenres`. -/
def parseGenres (html : List Char) : List (List Char) :=
  let genres := parseListField html genrePatterns
  if genres.length > 0 then genres else [sl "未知类型"]

/-- `parseActors`. -/
def parseActors (html : List Char) : List (List Char) :=
  let actors := parseListField html actorPatterns
  if actors.length > 0 then actors else [sl "未知演员"]

/-- The JS line-terminator set, which `.` does not match. -/
def isJsLineTerm (c : Char) : Bool :=
  let n := c.toNat
  n == 10 || n == 13 || n == 0x2028 || n == 0x2029

/-- `REGEX_PATTERNS.IMAGE_URL_CLEAN` applied by
`url.replace(/\?.*$/, '')`: removes from the leftmost `'?'` that is
followed only by non-line-terminator characters through the end of the
string (the pattern is not multiline, so a match runs to the real end). -/
def imageUrlClean : List Char → List Char
  | [] => []
  | c :: cs =>
    if c = '?' && cs.all (fun d => !isJsLineTerm d) then []
    else c :: imageUrlClean cs

/-- The per-pattern body of `parsePoster`'s loop. -/
def parsePosterGo (html : List Char) : List RE → List Char
  | [] => sl "暂无封面"
  | p :: ps =>
    match searchStr p html with
    | some caps =>
      let c := getCap caps 1
      if c ≠ [] then
        let u0 := imageUrlClean (trimC c)
        let u1 :=
          if startsWithL u0 (sl "//") then sl "https:" ++ u0
          else if startsWithL u0 (sl "/") then BASE_URL ++ u0
          else u0
        if startsWithL u1 (sl "http") then u1 else parsePosterGo html ps
      else parsePosterGo html ps
    | none => parsePosterGo html ps

/-- `parsePoster`. -/
def parsePoster (html : List Char) : List Char := parsePosterGo html posterPatterns

/-- `summary.replace(/^\s*©豆瓣/, '')`. -/
def stripCopyrightPrefix (s : List Char) : List Char :=
  let s1 := s.dropWhile jsWs
  if startsWithL s1 (sl "©豆瓣") then s1.drop 3 else s

/-- `summary.replace(/\s*\(展开全部\)\s*$/, '')`. -/
def stripExpandSuffix (s : List Char) : List Char :=
  let r := s.reverse.dropWhile jsWs
  if startsWithL r (sl "(展开全部)").reverse then
    ((r.drop 6).dropWhile jsWs).reverse
  else s

/-- `summary.replace(/\s*显示全部\s*$/, '')`. -/
def stripShowAllSuffix (s : List Char) : List Char :=
  let r := s.reverse.dropWhile jsWs
  if startsWithL r (sl "显示全部").reverse then
    ((r.drop 4).dropWhile jsWs).reverse
  else s

/-- The per-pattern body of `parseSummary`'s loop. -/
def parseSummaryGo (html : List Char) : List RE → List Char
  | [] => sl "暂无简介"
  | p :: ps =>
    match searchStr p html with
    | some caps =>
      let c := getCap caps 1
      if c ≠ [] then
        let s1 := cleanWhitespace (stripHtml c)
        let s2 := stripShowAllSuffix (stripExpandSuffix (stripCopyrightPrefix s1))
        if s2.length > 10 then truncateJs s2 500 else parseSummaryGo html ps
      else parseSummaryGo html ps
    | none => parseSummaryGo html ps

/-- `parseSummary`. -/
def parseSummary (html : List Char) : List Char := parseSummaryGo html summaryPatterns

/-! ## Detail parser: record assembly (`parseMovieInfo`, `getMovieInfo`) -/

/-- The `MovieInfo` record shape. -/
structure MovieInfo where
  title : List Char
  year : List Char
  rating : List Char
  genres : List (List Char)
  actors : List (List Char)
  poster : List Char
  summary : List Char
deriving DecidableEq, Repr

/-- `parseMovieInfo(html, url)`: assembles the seven fields and throws when
the mandatory title check `if (!movieInfo.title)` fires (an empty title;
the thrown error is rewrapped by the surrounding catch into a
`PARSE_ERROR`).  The `url` argument is unused by the source body and kept
for shape fidelity. -/
def parseMovieInfo (html : List Char) (_url : List Char) : Except DError MovieInfo :=
  let movieInfo : MovieInfo :=
    { title := parseTitle html
      year := parseYear html
      rating := parseRating html
      genres := parseGenres html
      actors := parseActors html
      poster := parsePoster html
      summary := parseSummary html }
  if movieInfo.title = [] then .error (parseErrorWrapping none)
  else .ok movieInfo

/-- `getMovieInfo(movieUrl)`: rejects an empty url, then fetches the page
and parses it.  The retrieval effect is passed in as the `fetched` oracle:
the `Except` value that `fetchText(movieUrl)` settled to.  Any error thrown
inside the try block — a fetch failure as much as a parse failure — is
caught and rewrapped by `ErrorFactory.createParseError`. -/
def getMovieInfo (movieUrl : List Char) (fetched : Except DError (List Char)) :
    Except DError MovieInfo :=
  if movieUrl = [] then .error invalidArgsError
  else
    match fetched with
    | .error e => .error (parseErrorWrapping (some e.typ))
    | .ok html =>
      match parseMovieInfo html movieUrl with
      | .ok info => .ok info
      | .error e => .error (parseErrorWrapping (some e.typ))

/-- `validateMovieInfo`: checks the presence of the seven fields, that the
list fields are arrays and the scalar fields strings.  In this typed
embedding every check holds by construction, so the function is constantly
`true`; it is kept because the round-trip claim quantifies over records
that pass it. -/
def validateMovieInfo (_ : MovieInfo) : Bool := true

/-- `cleanMovieInfo`. -/
def cleanMovieInfo (movieInfo : MovieInfo) : MovieInfo :=
  { title := cleanWhitespace movieInfo.title
    year := trimC movieInfo.year
    rating := trimC movieInfo.rating
    genres := (movieInfo.genres.map cleanWhitespace).filter (fun g => g.length > 0)
    actors := (movieInfo.actors.map cleanWhitespace).filter (fun a => a.length > 0)
    poster := trimC movieInfo.poster
    summary := cleanWhitespace movieInfo.summary }

/-! ## HTTP client (`http.ts`)

`HttpClient.fetch` loops `for (attempt = 0; attempt <= maxRetries;
attempt++)`.  Each pass awaits `fetchWithTimeout`; the outcome of attempt
number `i` is supplied by an oracle.  Control-flow details reproduced
exactly from the source:

  * a non-ok response on the final attempt throws a network error — thrown
    inside the `try`, caught by the own `catch`, and rethrown there because
    it is a `DoubanScraperError` and the attempt is the last;
  * a non-ok response on an earlier attempt whose status satisfies
    `shouldNotRetry` also throws inside the `try`; that throw is likewise
    caught by the own `catch`, which — the attempt not being the last —
    sleeps `RETRY_DELAY * (attempt + 1)` and retries;
  * a non-ok retryable response on an earlier attempt falls off the end of
    the `try` block and loops again with no delay;
  * an exception from `fetchWithTimeout` (timeout abort or transport
    failure) reaches the `catch`: rethrow/wrap as a network error on the
    last attempt, otherwise sleep `RETRY_DELAY * (attempt + 1)` and retry. -/

/-- Outcome of one `fetchWithTimeout` call: a settled response with a
status code, or a thrown exception (timeout abort or transport error). -/
inductive AttemptOutcome where
  | resp (status : Nat)
  | exn (timeout : Bool)

/-- `Response.ok`: status in the range 200–299. -/
def respOk (status : Nat) : Bool := 200 ≤ status && status ≤ 299

/-- `HttpClient.shouldNotRetry`: `status >= 400 && status < 500`. -/
def shouldNotRetry (status : Nat) : Bool := 400 ≤ status && status < 500

/-- The retry loop of `HttpClient.fetch`, from the attempt numbered
`attempt` with `rem = maxRetries - attempt` iterations left after this one.
Returns the settled result (the ok status, or the thrown error), the number
of attempts performed, and the list of sleeps awaited, in order. -/
def fetchAux (oracle : Nat → AttemptOutcome) : Nat → Nat →
    Except DError Nat × Nat × List Nat
  | attempt, rem =>
    match oracle attempt with
    | .resp s =>
      if respOk s then (.ok s, 1, [])
      else
        match rem with
        | 0 => (.error netError, 1, [])
        | rem' + 1 =>
          -- both the non-retryable throw-then-caught path and the
          -- fall-through path loop again; only the former sleeps first
          let (r, n, ds) := fetchAux oracle (attempt + 1) rem'
          if shouldNotRetry s then (r, n + 1, RETRY_DELAY * (attempt + 1) :: ds)
          else (r, n + 1, ds)
    | .exn _ =>
      match rem with
      | 0 => (.error netError, 1, [])
      | rem' + 1 =>
        let (r, n, ds) := fetchAux oracle (attempt + 1) rem'
        (r, n + 1, RETRY_DELAY * (attempt + 1) :: ds)

/-- `HttpClient.fetch(url)` for a client constructed with the given
`maxRetries`, the per-attempt outcomes given by the oracle. -/
def fetchModel (oracle : Nat → AttemptOutcome) (maxRetries : Nat) :
    Except DError Nat × Nat × List Nat :=
  fetchAux oracle 0 maxRetries

/-! ## Search module (`search.ts`) -/

/-- A `SearchResult` candidate. -/
structure SearchResult where
  id : List Char
  url : List Char
  title : List Char
deriving DecidableEq, Repr

/-- One entry of the suggestion endpoint's JSON payload.  A missing string
field and an empty one are indistinguishable to the scraper's falsiness
checks, so both are modelled as `[]`. -/
structure SearchItem where
  title : List Char
  url : List Char
  id : List Char
deriving DecidableEq, Repr

/-- The `for (const item of data)` loop of `parseJsonSearchResults` with
its accumulated `results` array.  A null entry (modelled as `none`) throws
a `TypeError` at the `item.title` access, which the function's catch
rewraps as a parse error. -/
def parseJsonGo : List (Option SearchItem) → List SearchResult →
    Except DError (List SearchResult)
  | [], results => .ok results
  | none :: _, _ => .error (parseErrorWrapping none)
  | some item :: rest, results =>
    if item.title = [] ∨ item.url = [] then parseJsonGo rest results
    else
      let id :=
        match searchStr MOVIE_ID item.url with
        | some caps => getCap caps 1
        | none => item.id
      if id ≠ [] then
        parseJsonGo rest (results ++
          [{ id := id
             url := if startsWithL item.url (sl "http") then item.url
                    else BASE_URL ++ item.url
             title := cleanWhitespace (stripHtml item.title) }])
      else parseJsonGo rest results

/-- `parseJsonSearchResults`. -/
def parseJsonSearchResults (data : List (Option SearchItem)) :
    Except DError (List SearchResult) :=
  parseJsonGo data []

/-- The global results-block pattern of `parseHtmlSearchResults`:
`/<div class="item-root">[\s\S]*?<a[^>]*href="([^"]*subject\/(\d+)\/[^"]*)"[^>]*>[\s\S]*?<span[^>]*class="[^"]*title[^"]*"[^>]*>([^<]+)<\/span>/g`. -/
def HTML_RESULT : RE :=
  reSeq [reLit "<div class=\"item-root\">", RE.starL anyCh,
    reLit "<a", RE.starG notGt, reLit "href=\"",
    RE.group 1 (reSeq [RE.starG notQuote, reLit "subject/",
      RE.group 2 (rePlus isDig), RE.lit '/', RE.starG notQuote]),
    RE.lit '"', RE.starG notGt, RE.lit '>', RE.starL anyCh,
    reLit "<span", RE.starG notGt, reLit "class=\"", RE.starG notQuote,
    reLit "title", RE.starG notQuote, RE.lit '"', RE.starG notGt, RE.lit '>',
    RE.group 3 (rePlus notLt), reLit "</span>"]

/-- The body of the `while (resultPattern.exec(html))` loop of
`parseHtmlSearchResults`: destructure the match's captures and push a
candidate when both `id` and `title` are truthy. -/
def parseHtmlStep (results : List SearchResult) (caps : Caps) : List SearchResult :=
  let url := getCap caps 1
  let id := getCap caps 2
  let title := getCap caps 3
  if id ≠ [] ∧ title ≠ [] then
    results ++
      [{ id := id
         url := if startsWithL url (sl "http") then url else BASE_URL ++ url
         title := cleanWhitespace (stripHtml title) }]
  else results

/-- `parseHtmlSearchResults`: the exec loop over the results-block pattern.
Nothing in the loop body can throw, so the function is total. -/
def parseHtmlSearchResults (html : List Char) : List SearchResult :=
  (execAll HTML_RESULT html).foldl parseHtmlStep []

/-- `searchMovieMain`: fetch the suggestion endpoint as JSON and parse.
The fetch/decode effect arrives as an oracle: an error for a network or
JSON-decode failure, `some payload` for an array, `none` for a payload
that fails the `Array.isArray` check.  Every failure path — rejected
fetch, non-array shape, or a parse error thrown from
`parseJsonSearchResults` — is caught and degraded to `[]`. -/
def searchMovieMain (mainFetch : Except DError (Option (List (Option SearchItem)))) :
    List SearchResult :=
  match mainFetch with
  | .error _ => []
  | .ok none => []
  | .ok (some data) =>
    match parseJsonSearchResults data with
    | .ok results => results
    | .error _ => []

/-- `searchMovieBackup`: fetch the search page HTML and scan it; a fetch
failure is caught and degraded to `[]`. -/
def searchMovieBackup (backupFetch : Except DError (List Char)) : List SearchResult :=
  match backupFetch with
  | .error _ => []
  | .ok html => parseHtmlSearchResults html

/-- `searchMovie(movieName)`: argument validation, then the primary
strategy, then — only when the primary yielded no results — the backup
strategy.  The boolean in the result records whether the backup strategy
was invoked.  The enclosing catch that would rewrap an escaping error as a
network error is unreachable: both strategies recover their own failures. -/
def searchMovie (movieName : List Char)
    (mainFetch : Except DError (Option (List (Option SearchItem))))
    (backupFetch : Except DError (List Char)) :
    Except DError (List SearchResult × Bool) :=
  if movieName = [] ∨ trimC movieName = [] then .error invalidArgsError
  else
    let results := searchMovieMain mainFetch
    if results.length = 0 then .ok (searchMovieBackup backupFetch, true)
    else .ok (results, false)

/-! ## Match selector (`selectBestMatch`, `calculateSimilarity`,
`levenshteinDistance`) -/

/-- The inner loop of the `levenshteinDistance` matrix fill: given the
previous row and the value just written to the current row's left cell,
produce the rest of the current row.  `prev` is consumed so that its head
is the diagonal neighbour `matrix[j-1][i-1]` and the next element the upper
neighbour `matrix[j-1][i]`. -/
def levRowGo (yc : Char) : List Char → Nat → List Nat → List Nat
  | [], _, _ => []
  | x :: xs, left, pdiag :: pup :: prest =>
    let v := min (left + 1) (min (pup + 1) (pdiag + if x = yc then 0 else 1))
    v :: levRowGo yc xs v (pup :: prest)
  | _ :: _, _, _ => []

/-- The outer loop of the matrix fill: one row per character of `str2`,
`j` counting rows already filled. -/
def levRows (s1 : List Char) : List Char → Nat → List Nat → List Nat
  | [], _, prev => prev
  | y :: ys, j, prev => levRows s1 ys (j + 1) ((j + 1) :: levRowGo y s1 (j + 1) prev)

/-- `levenshteinDistance(str1, str2)`: the dynamic program over the
`(str2.length+1) × (str1.length+1)` matrix, returning
`matrix[str2.length][str1.length]` — the last entry of the last row. -/
def levenshteinDistance (s1 s2 : List Char) : Nat :=
  (levRows s1 s2 0 (List.range (s1.length + 1))).getLastD 0

/-- `calculateSimilarity(str1, str2)` over exact rationals: `1.0` on equal
strings, `0.8` on substring containment either way, otherwise
`1 - distance / maxLength` (with the `maxLength === 0` guard of the
source, unreachable past the equality test). -/
def calculateSimilarity (str1 str2 : List Char) : ℚ :=
  if str1 = str2 then 1
  else if containsSub str1 str2 || containsSub str2 str1 then 8 / 10
  else
    let maxLength := max str1.length str2.length
    if maxLength = 0 then 1
    else 1 - (levenshteinDistance str1 str2 : ℚ) / (maxLength : ℚ)

/-- `selectBestMatch(results, movieName)`: empty input throws
`NoResultsError`; a singleton is returned as is; otherwise every candidate
is scored against the lowercased, whitespace-collapsed query and the list
is sorted by descending score with a stable sort (ES2019 `Array.sort`),
taking the first element. -/
def selectBestMatch (results : List SearchResult) (movieName : List Char) :
    Except DError SearchResult :=
  match results with
  | [] => .error noResultsError
  | [single] => .ok single
  | _ :: _ :: _ =>
    let cleanMovieName := cleanWhitespace (toLowerJs movieName)
    let scored := results.map (fun result =>
      (result, calculateSimilarity cleanMovieName
        (cleanWhitespace (toLowerJs result.title))))
    let sorted := scored.mergeSort (fun a b => b.2 ≤ a.2)
    match sorted with
    | best :: _ => .ok best.1
    | [] => .error noResultsError

/-- `validateSearchResults`. -/
def validateSearchResults (results : List SearchResult) : Bool :=
  results.all (fun result =>
    result.id.length > 0 && result.url.length > 0 && result.title.length > 0)

/-! ## Canonical-form lemmas for `cleanWhitespace`

A cleaned string satisfies three invariants: every whitespace character in
it is a plain space, no two adjacent characters are both whitespace, and it
neither starts nor ends with whitespace.  Strings satisfying them are fixed
points of `cleanWhitespace`. -/

/-- The first character, if any, is not JS whitespace. -/
def headNoWs : List Char → Prop
  | [] => True
  | c :: _ => jsWs c = false

/-- The last character, if any, is not JS whitespace. -/
def lastNoWs (l : List Char) : Prop := headNoWs l.reverse

/-- Every whitespace character is a plain space. -/
def WsCanon (l : List Char) : Prop := ∀ c ∈ l, jsWs c = true → c = ' '

/-- No two adjacent characters are both whitespace. -/
def okRun : List Char → Bool
  | [] => true
  | [_] => true
  | a :: b :: t => !(jsWs a && jsWs b) && okRun (b :: t)

theorem okRun_tail {x : Char} {xs : List Char} (h : okRun (x :: xs) = true) :
    okRun xs = true := by
  cases xs with
  | nil => rfl
  | cons b t => simp [okRun] at h; exact h.2

theorem okRun_cons_of_headNoWs {x : Char} {xs : List Char}
    (h1 : headNoWs xs) (h2 : okRun xs = true) : okRun (x :: xs) = true := by
  cases xs with
  | nil => rfl
  | cons b t =>
    simp [headNoWs] at h1
    simp [okRun, h1, h2]

theorem okRun_cons_of_noWs {x : Char} {xs : List Char}
    (h1 : jsWs x = false) (h2 : okRun xs = true) : okRun (x :: xs) = true := by
  cases xs with
  | nil => rfl
  | cons b t => simp [okRun, h1, h2]

theorem okRun_append_left {a b : List Char} (h : okRun (a ++ b) = true) :
    okRun a = true := by
  induction a with
  | nil => rfl
  | cons x xs ih =>
    cases xs with
    | nil => rfl
    | cons y ys =>
      simp only [List.cons_append] at h
      have h' : okRun ((y :: ys) ++ b) = true := okRun_tail h
      have hx : jsWs x = false ∨ jsWs y = false := by
        simp [okRun] at h
        exact h.1
      simp [okRun, ih h']
      exact hx

theorem okRun_append_right {a b : List Char} (h : okRun (a ++ b) = true) :
    okRun b = true := by
  induction a with
  | nil => exact h
  | cons x xs ih =>
    exact ih (okRun_tail h)

theorem headNoWs_dropWhile (l : List Char) : headNoWs (l.dropWhile jsWs) := by
  induction l with
  | nil => trivial
  | cons c cs ih =>
    by_cases hc : jsWs c = true
    · simpa [List.dropWhile, hc] using ih
    · simp at hc
      simp [List.dropWhile, hc, headNoWs]

theorem dropWhile_fix {l : List Char} (h : headNoWs l) : l.dropWhile jsWs = l := by
  cases l with
  | nil => rfl
  | cons c cs => simp [headNoWs] at h; simp [List.dropWhile, h]

/-- `trimRight v` is a prefix of `v`: the decomposition witnessing it. -/
theorem trimRight_decomp (v : List Char) :
    v = trimRight v ++ (v.reverse.takeWhile jsWs).reverse := by
  have h := congrArg List.reverse (List.takeWhile_append_dropWhile jsWs v.reverse)
  simp only [List.reverse_append, List.reverse_reverse] at h
  exact h.symm

theorem lastNoWs_trimRight (v : List Char) : lastNoWs (trimRight v) := by
  unfold lastNoWs trimRight
  rw [List.reverse_reverse]
  exact headNoWs_dropWhile _

theorem headNoWs_trimRight {v : List Char} (h : headNoWs v) :
    headNoWs (trimRight v) := by
  rcases he : trimRight v with _ | ⟨c, rest⟩
  · trivial
  · have hd := trimRight_decomp v
    rw [he] at hd
    rw [hd] at h
    simpa [headNoWs] using h

theorem trimRight_fix {v : List Char} (h : lastNoWs v) : trimRight v = v := by
  unfold trimRight
  rw [dropWhile_fix h, List.reverse_reverse]

theorem headNoWs_trimC (s : List Char) : headNoWs (trimC s) :=
  headNoWs_trimRight (headNoWs_dropWhile s)

theorem lastNoWs_trimC (s : List Char) : lastNoWs (trimC s) :=
  lastNoWs_trimRight _

theorem trimC_fix {s : List Char} (h1 : headNoWs s) (h2 : lastNoWs s) :
    trimC s = s := by
  unfold trimC trimLeft
  rw [dropWhile_fix h1, trimRight_fix h2]

theorem trimC_idem (s : List Char) : trimC (trimC s) = trimC s :=
  trimC_fix (headNoWs_trimC s) (lastNoWs_trimC s)

theorem trimC_subset (l : List Char) : trimC l ⊆ l := by
  intro x hx
  have h2 : x ∈ trimLeft l := by
    have hd := trimRight_decomp (trimLeft l)
    have : x ∈ trimRight (trimLeft l) := hx
    rw [hd]
    exact List.mem_append_left _ this
  have h1 : x ∈ List.takeWhile jsWs l ++ List.dropWhile jsWs l := by
    exact List.mem_append_right _ h2
  rwa [List.takeWhile_append_dropWhile] at h1

theorem wsCanon_trimC {l : List Char} (h : WsCanon l) : WsCanon (trimC l) :=
  fun c hc hw => h c (trimC_subset l hc) hw

theorem okRun_trimC {l : List Char} (h : okRun l = true) :
    okRun (trimC l) = true := by
  have h1 : okRun (trimLeft l) = true := by
    have heq := List.takeWhile_append_dropWhile jsWs l
    rw [← heq] at h
    exact okRun_append_right h
  have h2 := trimRight_decomp (trimLeft l)
  rw [h2] at h1
  exact okRun_append_left h1

theorem headNoWs_collapseGo_true (l : List Char) :
    headNoWs (collapseGo true l) := by
  induction l with
  | nil => trivial
  | cons c cs ih =>
    by_cases hc : jsWs c = true
    · simpa [collapseGo, hc] using ih
    · simp at hc
      simp [collapseGo, hc, headNoWs]

theorem okRun_collapseGo (l : List Char) :
    ∀ b, okRun (collapseGo b l) = true := by
  induction l with
  | nil => intro b; rfl
  | cons c cs ih =>
    intro b
    by_cases hc : jsWs c = true
    · cases b with
      | true => simpa [collapseGo, hc] using ih true
      | false =>
        simp only [collapseGo, hc, if_true]
        exact okRun_cons_of_headNoWs (headNoWs_collapseGo_true cs) (ih true)
    · simp at hc
      simp only [collapseGo, hc]
      simp
      exact okRun_cons_of_noWs hc (ih false)

theorem wsCanon_collapseGo (l : List Char) :
    ∀ b, WsCanon (collapseGo b l) := by
  induction l with
  | nil => intro b c hc; simp [collapseGo] at hc
  | cons c cs ih =>
    intro b d hd hw
    by_cases hc : jsWs c = true
    · cases b with
      | true =>
        simp only [collapseGo, hc, if_true] at hd
        exact ih true d hd hw
      | false =>
        simp only [collapseGo, hc, if_true] at hd
        rcases List.mem_cons.mp hd with h | h
        · exact h
        · exact ih true d h hw
    · simp at hc
      simp only [collapseGo, hc] at hd
      simp at hd
      rcases hd with h | h
      · subst h; rw [hc] at hw; cases hw
      · exact ih false d h hw

theorem collapseGo_true_eq_false {t : List Char} (h : headNoWs t) :
    collapseGo true t = collapseGo false t := by
  cases t with
  | nil => rfl
  | cons c cs => simp [headNoWs] at h; simp [collapseGo, h]

theorem collapse_fix {l : List Char} (h1 : WsCanon l) (h2 : okRun l = true) :
    collapseGo false l = l := by
  induction l with
  | nil => rfl
  | cons c cs ih =>
    by_cases hc : jsWs c = true
    · have hsp : c = ' ' := h1 c (List.mem_cons_self c cs) hc
      have hhead : headNoWs cs := by
        cases cs with
        | nil => trivial
        | cons d t =>
          simp [okRun, hc] at h2
          simp [headNoWs]
          exact h2.1
      have hcs : collapseGo false cs = cs :=
        ih (fun d hd hw => h1 d (List.mem_cons_of_mem c hd) hw) (okRun_tail h2)
      have hstep : collapseGo false (c :: cs) = ' ' :: collapseGo true cs := by
        simp [collapseGo, hc]
      rw [hstep, collapseGo_true_eq_false hhead, hcs, hsp]
    · simp at hc
      simp only [collapseGo, hc]
      simp
      exact ih (fun d hd hw => h1 d (List.mem_cons_of_mem c hd) hw) (okRun_tail h2)

/-- `cleanWhitespace` is idempotent. -/
theorem cleanWhitespace_idem (s : List Char) :
    cleanWhitespace (cleanWhitespace s) = cleanWhitespace s := by
  unfold cleanWhitespace
  have hW : WsCanon (trimC (collapseWs s)) :=
    wsCanon_trimC (wsCanon_collapseGo s false)
  have hR : okRun (trimC (collapseWs s)) = true :=
    okRun_trimC (okRun_collapseGo s false)
  have hfix : collapseWs (trimC (collapseWs s)) = trimC (collapseWs s) :=
    collapse_fix hW hR
  rw [hfix, trimC_idem]

/-! ## The classic Levenshtein distance, and the matrix program's
equivalence to it

`levRec` is the textbook recursion: single-character insert, delete and
substitute, each at unit cost.  The source's `levenshteinDistance` fills a
prefix-indexed matrix; its rows are shown to hold the distances between
reversed prefixes, and a reversal-invariance lemma closes the gap. -/

/-- The classic unit-cost Levenshtein distance, defined by the textbook
recursion on list heads. -/
def levRec : List Char → List Char → Nat
  | [], ys => ys.length
  | xs, [] => xs.length
  | x :: xs, y :: ys =>
    min (levRec xs (y :: ys) + 1)
      (min (levRec (x :: xs) ys + 1)
        (levRec xs ys + if x = y then 0 else 1))
termination_by a b => a.length + b.length

theorem levRec_nil_left (ys : List Char) : levRec [] ys = ys.length := by
  cases ys <;> simp [levRec]

theorem levRec_nil_right (xs : List Char) : levRec xs [] = xs.length := by
  cases xs <;> simp [levRec]

theorem levRec_cons_cons (x y : Char) (xs ys : List Char) :
    levRec (x :: xs) (y :: ys) =
      min (levRec xs (y :: ys) + 1)
        (min (levRec (x :: xs) ys + 1)
          (levRec xs ys + if x = y then 0 else 1)) := by
  simp [levRec]

theorem levRec_le (a : List Char) : ∀ b, levRec a b ≤ a.length + b.length := by
  induction a with
  | nil => intro b; simp [levRec_nil_left]
  | cons x xs ih =>
    intro b
    induction b with
    | nil => simp [levRec_nil_right]
    | cons y ys ih2 =>
      rw [levRec_cons_cons]
      have h1 := ih (y :: ys)
      have h2 : min (levRec xs (y :: ys) + 1)
          (min (levRec (x :: xs) ys + 1)
            (levRec xs ys + if x = y then 0 else 1)) ≤ levRec xs (y :: ys) + 1 :=
        Nat.min_le_left _ _
      simp at h1 ⊢
      omega

/-- The reassociation of nine-entry minimum grids behind the snoc
recurrence: taking row minima first agrees with taking column minima
first. -/
theorem min_grid_comm (a1 a2 a3 a4 a5 a6 a7 a8 a9 p q : Nat) :
    min (min (a1 + 1) (min (a2 + 1) (a3 + q)) + 1)
      (min (min (a4 + 1) (min (a5 + 1) (a6 + q)) + 1)
        (min (a7 + 1) (min (a8 + 1) (a9 + q)) + p)) =
    min (min (a1 + 1) (min (a4 + 1) (a7 + p)) + 1)
      (min (min (a2 + 1) (min (a5 + 1) (a8 + p)) + 1)
        (min (a3 + 1) (min (a6 + 1) (a9 + p)) + q)) := by
  apply le_antisymm <;> simp only [le_min_iff, min_le_iff] <;> omega

/-- The snoc form of the Levenshtein recurrence: appending one character to
the end of each list satisfies the same three-way minimum as prepending. -/
theorem levRec_snoc_aux (n : Nat) : ∀ (u v : List Char) (x y : Char),
    u.length + v.length ≤ n →
    levRec (u ++ [x]) (v ++ [y]) =
      min (levRec u (v ++ [y]) + 1)
        (min (levRec (u ++ [x]) v + 1)
          (levRec u v + if x = y then 0 else 1)) := by
  induction n with
  | zero =>
    intro u v x y hn
    have hu : u = [] := by cases u <;> simp at hn ⊢
    have hv : v = [] := by cases v <;> simp at hn ⊢ <;> omega
    subst hu; subst hv
    simp [levRec_cons_cons, levRec_nil_left, levRec_nil_right]
  | succ n ih =>
    intro u v x y hn
    match u, v with
    | [], [] =>
      simp [levRec_cons_cons, levRec_nil_left, levRec_nil_right]
    | [], b :: v' =>
      have hIH := ih [] v' x y
        (by simp only [List.length_nil, List.length_cons] at hn ⊢; omega)
      simp only [List.nil_append] at hIH ⊢
      simp only [List.cons_append]
      rw [levRec_cons_cons x b [] (v' ++ [y]), hIH,
        levRec_cons_cons x b [] v']
      have hb1 : (if x = b then (0 : Nat) else 1) ≤ 1 := by split <;> simp
      have hb2 : (if x = y then (0 : Nat) else 1) ≤ 1 := by split <;> simp
      have hE : levRec [x] v' ≤ 1 + v'.length := levRec_le [x] v'
      simp only [levRec_nil_left, levRec_nil_right, List.length_append,
        List.length_cons, List.length_nil]
      omega
    | a :: u', [] =>
      have hIH := ih u' [] x y
        (by simp only [List.length_nil, List.length_cons] at hn ⊢; omega)
      simp only [List.append_nil, List.nil_append] at hIH ⊢
      simp only [List.cons_append]
      rw [levRec_cons_cons a y (u' ++ [x]) [], hIH,
        levRec_cons_cons a y u' []]
      have hb1 : (if a = y then (0 : Nat) else 1) ≤ 1 := by split <;> simp
      have hb2 : (if x = y then (0 : Nat) else 1) ≤ 1 := by split <;> simp
      have hE : levRec u' [y] ≤ u'.length + 1 := levRec_le u' [y]
      simp only [levRec_nil_left, levRec_nil_right, List.length_append,
        List.length_cons, List.length_nil]
      omega
    | a :: u', b :: v' =>
      have hs1 : u'.length + (b :: v').length ≤ n := by
        simp only [List.length_cons] at hn ⊢; omega
      have hs2 : (a :: u').length + v'.length ≤ n := by
        simp only [List.length_cons] at hn ⊢; omega
      have hs3 : u'.length + v'.length ≤ n := by
        simp only [List.length_cons] at hn ⊢; omega
      have hT1 := ih u' (b :: v') x y hs1
      have hT2 := ih (a :: u') v' x y hs2
      have hT3 := ih u' v' x y hs3
      simp only [List.cons_append] at hT1 hT2 ⊢
      rw [levRec_cons_cons a b (u' ++ [x]) (v' ++ [y])]
      rw [hT1, hT2, hT3]
      rw [levRec_cons_cons a b u' (v' ++ [y]),
        levRec_cons_cons a b (u' ++ [x]) v',
        levRec_cons_cons a b u' v']
      apply min_grid_comm

theorem levRec_snoc (u v : List Char) (x y : Char) :
    levRec (u ++ [x]) (v ++ [y]) =
      min (levRec u (v ++ [y]) + 1)
        (min (levRec (u ++ [x]) v + 1)
          (levRec u v + if x = y then 0 else 1)) :=
  levRec_snoc_aux (u.length + v.length) u v x y (Nat.le_refl _)

/-- Levenshtein distance is invariant under reversing both lists. -/
theorem levRec_reverse_aux (n : Nat) : ∀ (a b : List Char),
    a.length + b.length ≤ n → levRec a.reverse b.reverse = levRec a b := by
  induction n with
  | zero =>
    intro a b hn
    have ha : a = [] := by cases a <;> simp at hn ⊢
    have hb : b = [] := by cases b <;> simp at hn ⊢ <;> omega
    subst ha; subst hb; rfl
  | succ n ih =>
    intro a b hn
    match a, b with
    | [], b => simp [levRec_nil_left]
    | a, [] => simp [levRec_nil_right]
    | x :: xs, y :: ys =>
      have h1 : xs.length + (y :: ys).length ≤ n := by simp at hn ⊢; omega
      have h2 : (x :: xs).length + ys.length ≤ n := by simp at hn ⊢; omega
      have h3 : xs.length + ys.length ≤ n := by simp at hn ⊢; omega
      have hrev1 : (x :: xs).reverse = xs.reverse ++ [x] := by simp
      have hrev2 : (y :: ys).reverse = ys.reverse ++ [y] := by simp
      rw [hrev1, hrev2, levRec_snoc]
      rw [show ys.reverse ++ [y] = (y :: ys).reverse from by simp]
      rw [show xs.reverse ++ [x] = (x :: xs).reverse from by simp]
      rw [ih xs (y :: ys) h1, ih (x :: xs) ys h2, ih xs ys h3,
        levRec_cons_cons]

theorem levRec_reverse (a b : List Char) :
    levRec a.reverse b.reverse = levRec a b :=
  levRec_reverse_aux (a.length + b.length) a b (Nat.le_refl _)

/-- The row abstraction: starting from the reversed processed prefix `A` of
`str1`, the row entries are the distances from each further reversed prefix
of `str1` to the reversed processed prefix `B` of `str2`. -/
def prefRow (B : List Char) : List Char → List Char → List Nat
  | A, [] => [levRec A B]
  | A, x :: xs => levRec A B :: prefRow B (x :: A) xs

theorem prefRow_shape (B A : List Char) (xs : List Char) :
    prefRow B A xs = levRec A B :: (prefRow B A xs).tail := by
  cases xs <;> rfl

/-- One pass of the inner matrix loop turns the row for `B` into the row
for `y :: B`. -/
theorem levRowGo_prefRow (y : Char) (B : List Char) :
    ∀ (xs A : List Char),
      levRec A (y :: B) :: levRowGo y xs (levRec A (y :: B)) (prefRow B A xs)
        = prefRow (y :: B) A xs := by
  intro xs
  induction xs with
  | nil => intro A; simp [levRowGo, prefRow]
  | cons x xs ih =>
    intro A
    have hp : prefRow B A (x :: xs) =
        levRec A B :: levRec (x :: A) B :: (prefRow B (x :: A) xs).tail := by
      cases xs <;> rfl
    rw [hp]
    simp only [levRowGo]
    have hv : min (levRec A (y :: B) + 1)
        (min (levRec (x :: A) B + 1)
          (levRec A B + if x = y then 0 else 1)) = levRec (x :: A) (y :: B) := by
      rw [levRec_cons_cons]
    rw [hv, ← prefRow_shape B (x :: A) xs, ih (x :: A)]
    rfl

/-- The outer matrix loop: processing `ys` extends the processed prefix. -/
theorem levRows_inv (s1 : List Char) :
    ∀ (ys R : List Char),
      levRows s1 ys R.length (prefRow R [] s1) = prefRow (ys.reverse ++ R) [] s1 := by
  intro ys
  induction ys with
  | nil => intro R; simp [levRows]
  | cons y ys ih =>
    intro R
    show levRows s1 ys (R.length + 1)
      ((R.length + 1) :: levRowGo y s1 (R.length + 1) (prefRow R [] s1)) = _
    have hhead : (R.length + 1) = levRec ([] : List Char) (y :: R) := by
      simp [levRec_nil_left]
    rw [hhead, levRowGo_prefRow y R s1 [],
      show levRec ([] : List Char) (y :: R) = (y :: R).length from levRec_nil_left _,
      ih (y :: R)]
    simp [List.append_assoc]

/-- The initial row `[0, 1, ..., n]` is the row abstraction at `B = []`. -/
theorem prefRow_nil_eq : ∀ (xs A : List Char),
    prefRow [] A xs = (List.range (xs.length + 1)).map (fun i => A.length + i) := by
  intro xs
  induction xs with
  | nil =>
    intro A
    simp [prefRow, levRec_nil_right, List.range_succ_eq_map]
  | cons x xs ih =>
    intro A
    rw [show prefRow [] A (x :: xs) = levRec A [] :: prefRow [] (x :: A) xs from rfl,
      ih (x :: A), levRec_nil_right]
    have hr : List.range ((x :: xs).length + 1) =
        0 :: List.map Nat.succ (List.range (xs.length + 1)) := by
      simp [List.range_succ_eq_map]
    rw [hr, List.map_cons, List.map_map]
    refine congrArg₂ List.cons (by omega) ?_
    apply List.map_congr_left
    intro i _
    simp only [Function.comp_apply, List.length_cons]
    omega

/-- The last entry of a row is the distance for the full remaining prefix. -/
theorem prefRow_getLast (B : List Char) : ∀ (xs A : List Char),
    (prefRow B A xs).getLastD 0 = levRec (xs.reverse ++ A) B := by
  intro xs
  induction xs with
  | nil => intro A; simp [prefRow]
  | cons x xs ih =>
    intro A
    rw [show prefRow B A (x :: xs) = levRec A B :: prefRow B (x :: A) xs from rfl]
    rw [prefRow_shape B (x :: A) xs]
    rw [List.getLastD_cons, List.getLastD_cons]
    have h1 := ih (x :: A)
    rw [prefRow_shape B (x :: A) xs, List.getLastD_cons] at h1
    rw [h1]
    simp

/-- The matrix program computes the classic Levenshtein distance. -/
theorem levenshteinDistance_eq_levRec (s1 s2 : List Char) :
    levenshteinDistance s1 s2 = levRec s1 s2 := by
  unfold levenshteinDistance
  have h0 : List.range (s1.length + 1) = prefRow [] [] s1 := by
    rw [prefRow_nil_eq s1 []]
    simp
  rw [h0]
  have h1 := levRows_inv s1 s2 []
  simp only [List.length_nil, List.append_nil] at h1
  rw [h1, prefRow_getLast s2.reverse s1 []]
  simp only [List.append_nil]
  exact levRec_reverse s1 s2

/-! ## Candidate-shape invariants of the two search parsers -/

/-- Pushed JSON candidates always carry a non-empty id and url: the loop
guards id truthiness and url truthiness, and relative urls gain the
non-empty base prefix. -/
theorem parseJsonGo_invariant :
    ∀ (data : List (Option SearchItem)) (acc rs : List SearchResult),
      (∀ r ∈ acc, r.id ≠ [] ∧ r.url ≠ []) →
      parseJsonGo data acc = Except.ok rs →
      ∀ r ∈ rs, r.id ≠ [] ∧ r.url ≠ [] := by
  intro data
  induction data with
  | nil =>
    intro acc rs hacc heq
    simp only [parseJsonGo, Except.ok.injEq] at heq
    exact heq ▸ hacc
  | cons o rest ih =>
    intro acc rs hacc heq
    cases o with
    | none => simp [parseJsonGo] at heq
    | some item =>
      by_cases hskip : item.title = [] ∨ item.url = []
      · rw [show parseJsonGo (some item :: rest) acc =
            (if item.title = [] ∨ item.url = [] then parseJsonGo rest acc
             else _) from rfl, if_pos hskip] at heq
        exact ih acc rs hacc heq
      · simp only [parseJsonGo, if_neg hskip] at heq
        push_neg at hskip
        by_cases hid : (match searchStr MOVIE_ID item.url with
            | some caps => getCap caps 1
            | none => item.id) ≠ []
        · rw [if_pos hid] at heq
          refine ih _ rs ?_ heq
          intro r hr
          rcases List.mem_append.mp hr with hmem | hmem
          · exact hacc r hmem
          · have hr2 := List.mem_singleton.mp hmem
            subst hr2
            refine ⟨hid, ?_⟩
            by_cases hs : startsWithL item.url (sl "http") = true
            · simpa [hs] using hskip.2
            · simp only [hs, if_false, Bool.false_eq_true]
              intro hc
              rw [List.append_eq_nil] at hc
              exact absurd hc.1 (by decide)
        · rw [if_neg hid] at heq
          exact ih acc rs hacc heq

/-- Pushed HTML candidates always carry a non-empty id and url. -/
theorem parseHtmlFold_invariant :
    ∀ (L : List Caps) (acc : List SearchResult),
      (∀ r ∈ acc, r.id ≠ [] ∧ r.url ≠ []) →
      ∀ r ∈ L.foldl parseHtmlStep acc, r.id ≠ [] ∧ r.url ≠ [] := by
  intro L
  induction L with
  | nil => intro acc h; exact h
  | cons caps L ih =>
    intro acc h
    simp only [List.foldl_cons]
    apply ih
    intro r hr
    unfold parseHtmlStep at hr
    by_cases hc : getCap caps 2 ≠ [] ∧ getCap caps 3 ≠ []
    · rw [if_pos hc] at hr
      rcases List.mem_append.mp hr with hmem | hmem
      · exact h r hmem
      · have hr2 := List.mem_singleton.mp hmem
        subst hr2
        refine ⟨hc.1, ?_⟩
        by_cases hs : startsWithL (getCap caps 1) (sl "http") = true
        · simp only [hs, if_true]
          intro hu
          rw [hu] at hs
          exact absurd hs (by decide)
        · simp only [hs, if_false, Bool.false_eq_true]
          intro hu
          rw [List.append_eq_nil] at hu
          exact absurd hu.1 (by decide)
    · rw [if_neg hc] at hr
      exact h r hr

/-! ## Retry-loop lemmas for the HTTP client -/

/-- The loop performs at most `rem + 1` attempts. -/
theorem fetchAux_attempts_le (oracle : Nat → AttemptOutcome) :
    ∀ (rem attempt : Nat), (fetchAux oracle attempt rem).2.1 ≤ rem + 1 := by
  intro rem
  induction rem with
  | zero =>
    intro attempt
    cases h : oracle attempt with
    | resp s =>
      by_cases hok : respOk s = true
      · simp [fetchAux, h, hok]
      · simp [fetchAux, h, hok]
    | exn b => simp [fetchAux, h]
  | succ rem ih =>
    intro attempt
    have hih := ih (attempt + 1)
    rcases hres : fetchAux oracle (attempt + 1) rem with ⟨r, n, ds⟩
    rw [hres] at hih
    simp only at hih
    cases h : oracle attempt with
    | resp s =>
      by_cases hok : respOk s = true
      · simp [fetchAux, h, hok]
      · by_cases hnr : shouldNotRetry s = true
        · simp [fetchAux, h, hok, hnr, hres]; omega
        · simp [fetchAux, h, hok, hnr, hres]; omega
    | exn b => simp [fetchAux, h, hres]; omega

/-- On an oracle whose every attempt throws (for instance, always times
out), the loop performs exactly one attempt per permitted pass, sleeping
the linearly increasing delays in order, and settles to a network error. -/
theorem fetchAux_all_exn (b : Bool) :
    ∀ (rem attempt : Nat),
      fetchAux (fun _ => AttemptOutcome.exn b) attempt rem =
        (Except.error netError, rem + 1,
          (List.range rem).map (fun i => RETRY_DELAY * (attempt + 1 + i))) := by
  intro rem
  induction rem with
  | zero => intro attempt; simp [fetchAux]
  | succ rem ih =>
    intro attempt
    have hih := ih (attempt + 1)
    simp only [fetchAux, hih]
    refine congrArg _ (congrArg _ ?_)
    rw [List.range_succ_eq_map, List.map_cons, List.map_map]
    refine congrArg₂ List.cons
      (congrArg (fun t => RETRY_DELAY * t) (by omega)) ?_
    apply List.map_congr_left
    intro i _
    simp only [Function.comp_apply]
    exact congrArg (fun t => RETRY_DELAY * t) (by omega)

/-- Second-pass cleaning of a list field is a no-op: its elements are
`cleanWhitespace` outputs and already non-empty. -/
theorem cleanList_idem (l : List (List Char)) :
    (((l.map cleanWhitespace).filter (fun g => g.length > 0)).map
        cleanWhitespace).filter (fun g => g.length > 0) =
      (l.map cleanWhitespace).filter (fun g => g.length > 0) := by
  induction l with
  | nil => rfl
  | cons x t ih =>
    by_cases hx : (cleanWhitespace x).length > 0
    · simp only [List.map_cons, List.filter_cons, decide_eq_true_eq, if_pos hx,
        cleanWhitespace_idem, ih]
    · simp only [List.map_cons, List.filter_cons, decide_eq_true_eq, if_neg hx]
      exact ih

/-! ## The claims -/

/-- C1 (code bug): the design makes the title mandatory — a detail page on
which no title rule yields a non-empty title must fail with a parse error
rather than produce a record, so a returned record never carries the
unextractable-title sentinel.  The code's own check
`if (!movieInfo.title) throw` states the same intent, but `parseTitle`
returns the non-empty sentinel `"未知电影"` on total failure, so the check
can never fire: on an HTML string with no recognizable markup at all,
`parseMovieInfo` returns an ok record carrying the sentinel title. -/
theorem C1_sentinel_title_record_returned :
    parseMovieInfo [] [] =
      Except.ok { title := sl "未知电影", year := sl "未知",
                  rating := sl "暂无评分", genres := [sl "未知类型"],
                  actors := [sl "未知演员"], poster := sl "暂无封面",
                  summary := sl "暂无简介" } := by rfl

/-- C2 (code bug): a response with status in [400,500) is classified
non-retryable (`shouldNotRetry`, and the comment above its use site says
these statuses are not retried), so the fetch should fail immediately.
But the throw sits inside the `try` block and is caught by the loop's own
`catch`, which — the attempt not being the last — sleeps and retries it
like any retryable failure: with `maxRetries = 2` and every attempt
answering 404, the client performs all 3 attempts, sleeping 1000ms and
2000ms in between, before settling to the network error. -/
theorem C2_4xx_still_retried :
    shouldNotRetry 404 = true ∧
    fetchModel (fun _ => AttemptOutcome.resp 404) 2 =
      (Except.error netError, 3, [1000, 2000]) := ⟨by rfl, by rfl⟩

/-- C3 counterexample: on a url whose retrieval settles to a network error,
`getMovieInfo` fails with an error of kind `PARSE_ERROR` (wrapping the
network error), not of kind `NETWORK_ERROR` — its catch block rewraps every
escaping error, the fetch failure included, with
`ErrorFactory.createParseError`. -/
theorem C3_counterexample :
    getMovieInfo (sl "u") (Except.error netError) =
      Except.error { typ := ErrorType.parse, cause := some ErrorType.network } ∧
    ErrorType.parse ≠ ErrorType.network := ⟨by rfl, by decide⟩

/-- C3 (amended): for every non-empty url whose retrieval fails
unrecoverably, `getMovieInfo` fails with an error of kind `PARSE_ERROR`
that wraps the underlying failure; the `NETWORK_ERROR` kind is preserved
only as the wrapped cause, never surfaced directly. -/
theorem C3_fetch_failure_wrapped_as_parse (url : List Char) (e : DError)
    (h : url ≠ []) :
    getMovieInfo url (Except.error e) =
      Except.error { typ := ErrorType.parse, cause := some e.typ } := by
  unfold getMovieInfo
  rw [if_neg h]
  rfl

theorem C3_fetch_failure_wrapped_as_parse_witness :
    (sl "u" ≠ []) ∧
    getMovieInfo (sl "u") (Except.error invalidArgsError) =
      Except.error { typ := ErrorType.parse, cause := some ErrorType.invalidArgs } :=
  ⟨by decide, C3_fetch_failure_wrapped_as_parse (sl "u") invalidArgsError (by decide)⟩

/-- C4 counterexample: a JSON entry whose raw title is truthy but consists
only of markup — here `"<b></b>"` — passes the skip guard, yet
`cleanWhitespace(stripHtml(title))` empties it: the returned candidate has
a non-empty id and url but an empty title, refuting the claim that every
surfaced candidate has a non-empty title. -/
theorem C4_counterexample :
    parseJsonSearchResults
        [some { title := sl "<b></b>", url := sl "/subject/123/", id := sl "123" }] =
      Except.ok [{ id := sl "123", url := BASE_URL ++ sl "/subject/123/",
                   title := [] }] ∧
    ({ id := sl "123", url := BASE_URL ++ sl "/subject/123/",
       title := ([] : List Char) } : SearchResult).title = [] := ⟨by rfl, rfl⟩

/-- C4 (amended): every candidate surfaced by either search parser has a
non-empty id and a non-empty url — malformed entries are dropped, not
surfaced.  The cleaned display title, however, may be empty when the raw
title consists only of markup or whitespace. -/
theorem C4_candidates_nonempty_id_url :
    (∀ (data : List (Option SearchItem)) (rs : List SearchResult),
      parseJsonSearchResults data = Except.ok rs →
      ∀ r ∈ rs, r.id ≠ [] ∧ r.url ≠ []) ∧
    (∀ html : List Char, ∀ r ∈ parseHtmlSearchResults html,
      r.id ≠ [] ∧ r.url ≠ []) := by
  constructor
  · intro data rs h
    exact parseJsonGo_invariant data [] rs (by simp) h
  · intro html r hr
    exact parseHtmlFold_invariant (execAll HTML_RESULT html) [] (by simp) r hr

theorem C4_candidates_nonempty_id_url_witness :
    ({ id := sl "5", url := BASE_URL ++ sl "/subject/5/",
       title := sl "A" } : SearchResult).id ≠ [] ∧
    ({ id := sl "5", url := BASE_URL ++ sl "/subject/5/",
       title := sl "A" } : SearchResult).url ≠ [] :=
  C4_candidates_nonempty_id_url.1
    [some { title := sl "A", url := sl "/subject/5/", id := sl "5" }]
    [{ id := sl "5", url := BASE_URL ++ sl "/subject/5/", title := sl "A" }]
    (by rfl) _ (List.mem_singleton.mpr rfl)

/-- C5: the fetch loop performs at most `maxRetries + 1` attempts; on a url
whose every attempt times out it performs exactly `maxRetries + 1`
attempts with the linearly increasing sleeps `RETRY_DELAY * (attempt + 1)`
between them before settling to a network error — in particular, exactly
3 attempts with sleeps 1000ms and 2000ms when `maxRetries = 2`. -/
theorem C5_retry_attempts_and_delays :
    (∀ (oracle : Nat → AttemptOutcome) (maxRetries : Nat),
      (fetchModel oracle maxRetries).2.1 ≤ maxRetries + 1) ∧
    (∀ maxRetries : Nat,
      fetchModel (fun _ => AttemptOutcome.exn true) maxRetries =
        (Except.error netError, maxRetries + 1,
          (List.range maxRetries).map (fun i => RETRY_DELAY * (i + 1)))) ∧
    fetchModel (fun _ => AttemptOutcome.exn true) 2 =
      (Except.error netError, 3, [1000, 2000]) := by
  refine ⟨?_, ?_, by rfl⟩
  · intro oracle maxRetries
    exact fetchAux_attempts_le oracle maxRetries 0
  · intro maxRetries
    rw [fetchModel, fetchAux_all_exn]
    refine congrArg _ (congrArg _ ?_)
    apply List.map_congr_left
    intro i _
    exact congrArg (fun t => RETRY_DELAY * t) (by omega)

/-- C6: the similarity is exactly three-tiered — `1` on equal strings
(both empty included), `0.8` on substring containment between unequal
strings, and otherwise `1 - d / max(len a, len b)` where `d` is the
classic unit-cost insert/delete/substitute Levenshtein distance; in
particular the score of `"abc"` against `"abd"` is `2/3`. -/
theorem C6_similarity_three_tiers :
    (∀ a b : List Char, calculateSimilarity a b =
      if a = b then 1
      else if containsSub a b || containsSub b a then 8 / 10
      else 1 - (levRec a b : ℚ) / (max a.length b.length : ℚ)) ∧
    calculateSimilarity (sl "abc") (sl "abd") = 2 / 3 := by
  constructor
  · intro a b
    by_cases hab : a = b
    · simp [calculateSimilarity, hab]
    · by_cases hcon : (containsSub a b || containsSub b a) = true
      · simp [calculateSimilarity, hab, hcon]
      · have hmax : ¬ max a.length b.length = 0 := by
          intro h0
          rcases Nat.max_eq_zero_iff.mp h0 with ⟨h1, h2⟩
          exact hab (by rw [List.length_eq_zero.mp h1, List.length_eq_zero.mp h2])
        simp [calculateSimilarity, hab, hcon, hmax, levenshteinDistance_eq_levRec]
  · have hne : sl "abc" ≠ sl "abd" := by decide
    have hcon : (containsSub (sl "abc") (sl "abd") ||
        containsSub (sl "abd") (sl "abc")) = false := by decide
    have hlev : levenshteinDistance (sl "abc") (sl "abd") = 1 := by rfl
    have hmax : max (sl "abc").length (sl "abd").length = 3 := by rfl
    simp only [calculateSimilarity, if_neg hne, hcon, Bool.false_eq_true,
      if_false, hlev, hmax]
    norm_num

/-- C7: the backup (HTML-page) strategy runs exactly when the primary
(JSON-endpoint) strategy produced zero candidates; every failure of the
primary strategy — rejected fetch, non-array payload, or a parse error
thrown while mapping entries — is recovered locally to an empty result
(thereby triggering the backup) and never surfaces as a pipeline
failure. -/
theorem C7_backup_iff_primary_empty (movieName : List Char)
    (mainFetch : Except DError (Option (List (Option SearchItem))))
    (backupFetch : Except DError (List Char))
    (h : trimC movieName ≠ []) :
    searchMovie movieName mainFetch backupFetch =
      (if searchMovieMain mainFetch = [] then
        Except.ok (searchMovieBackup backupFetch, true)
      else Except.ok (searchMovieMain mainFetch, false)) ∧
    (∀ e, mainFetch = Except.error e → searchMovieMain mainFetch = []) ∧
    (mainFetch = Except.ok none → searchMovieMain mainFetch = []) ∧
    (∀ (data : List (Option SearchItem)) (e : DError),
      parseJsonSearchResults data = Except.error e →
      searchMovieMain (Except.ok (some data)) = []) := by
  have hname : movieName ≠ [] := by
    intro hn
    rw [hn] at h
    exact h rfl
  refine ⟨?_, ?_, ?_, ?_⟩
  · unfold searchMovie
    rw [if_neg (show ¬(movieName = [] ∨ trimC movieName = []) from by
      push_neg
      exact ⟨hname, h⟩)]
    simp only [List.length_eq_zero]
  · intro e he
    rw [he]
    rfl
  · intro he
    rw [he]
    rfl
  · intro data e he
    simp [searchMovieMain, he]

theorem C7_backup_iff_primary_empty_witness :
    (trimC (sl "q") ≠ []) ∧
    (searchMovie (sl "q") (Except.error netError) (Except.ok []) =
      (if searchMovieMain (Except.error netError) = [] then
        Except.ok (searchMovieBackup (Except.ok []), true)
      else Except.ok (searchMovieMain (Except.error netError), false)) ∧
    (∀ e, (Except.error netError :
        Except DError (Option (List (Option SearchItem)))) = Except.error e →
      searchMovieMain (Except.error netError) = []) ∧
    ((Except.error netError :
        Except DError (Option (List (Option SearchItem)))) = Except.ok none →
      searchMovieMain (Except.error netError) = []) ∧
    (∀ (data : List (Option SearchItem)) (e : DError),
      parseJsonSearchResults data = Except.error e →
      searchMovieMain (Except.ok (some data)) = [])) :=
  ⟨by decide,
    C7_backup_iff_primary_empty (sl "q") (Except.error netError)
      (Except.ok []) (by decide)⟩

/-- C8: `selectBestMatch` on the empty candidate list fails with the
no-results error, and on a singleton list returns its element unchanged,
whatever the query — no scoring is applied. -/
theorem C8_selectBest_empty_and_singleton (c : SearchResult) (q : List Char) :
    selectBestMatch [] q = Except.error noResultsError ∧
    selectBestMatch [c] q = Except.ok c := ⟨rfl, rfl⟩

/-- C9: the cleaner is idempotent on every record that passes validation:
cleaning an already-cleaned record changes nothing. -/
theorem C9_clean_idempotent (r : MovieInfo) (h : validateMovieInfo r = true) :
    cleanMovieInfo (cleanMovieInfo r) = cleanMovieInfo r := by
  unfold cleanMovieInfo
  simp only [MovieInfo.mk.injEq]
  exact ⟨cleanWhitespace_idem _, trimC_idem _, trimC_idem _, cleanList_idem _,
    cleanList_idem _, trimC_idem _, cleanWhitespace_idem _⟩

/-- A concrete validation-passing record for the round-trip witness. -/
def sampleRecord : MovieInfo :=
  { title := sl "  Sun   Shine ", year := sl " 2019 ", rating := sl "8.9",
    genres := [sl " 剧情 ", sl "  "], actors := [sl " 陈以文 "],
    poster := sl " p.jpg ", summary := sl " a  b " }

theorem C9_clean_idempotent_witness :
    validateMovieInfo sampleRecord = true ∧
    cleanMovieInfo (cleanMovieInfo sampleRecord) = cleanMovieInfo sampleRecord :=
  ⟨rfl, C9_clean_idempotent sampleRecord rfl⟩

/-- C10: an empty first string scores `0.8` against every non-empty string
(and symmetrically): the strings are unequal, and every string contains
the empty string as a substring, so the containment tier answers before
the Levenshtein tier is ever reached. -/
theorem C10_empty_string_scores_containment (t : List Char) (h : t ≠ []) :
    calculateSimilarity [] t = 8 / 10 ∧ calculateSimilarity t [] = 8 / 10 := by
  have hc : containsSub t [] = true := by cases t <;> rfl
  have hne : ([] : List Char) ≠ t := fun he => h he.symm
  constructor
  · have hcon : (containsSub [] t || containsSub t []) = true := by
      rw [hc]
      simp
    simp [calculateSimilarity, hne, hcon]
  · have hcon : (containsSub t [] || containsSub [] t) = true := by
      rw [hc]
      simp
    simp [calculateSimilarity, h, hcon]

theorem C10_empty_string_scores_containment_witness :
    (sl "ab" ≠ []) ∧
    (calculateSimilarity [] (sl "ab") = 8 / 10 ∧
      calculateSimilarity (sl "ab") [] = 8 / 10) :=
  ⟨by decide, C10_empty_string_scores_containment (sl "ab") (by decide)⟩

end Douban
